import Mathlib

/-!
Shallow embedding of the core of `ecnu_shell_assistant.py` (a natural-language
to shell-command assistant) and proofs about it.

Python strings are modelled as `List Char` (wrapped in `String` where
convenient), floats used as wall-clock instants as `ℤ` (whole seconds, which is
all the window logic inspects), and the fallible / effectful parts of the code
(the network call, the child process, the interactive loop) as explicit
outcome data threaded through otherwise pure Lean functions that mirror the
source's control flow branch by branch.
-/

namespace ECNUShell

/-! ### Python string primitives -/

/-- The whitespace characters recognised by Python's `str.split()` /
`str.strip()` (ASCII subset, which is all the program's data contains). -/
def pySpace (c : Char) : Bool :=
  c = ' ' || c = '\t' || c = '\n' || c = '\r' || c = '\x0b' || c = '\x0c'

/-- Python `str.strip()`: drop whitespace from both ends. -/
def pyStrip (s : List Char) : List Char :=
  ((s.dropWhile pySpace).reverse.dropWhile pySpace).reverse

/-- Python `str.split('\n')`: split at every newline, keeping empty pieces. -/
def splitNl : List Char → List (List Char)
  | [] => [[]]
  | c :: rest =>
    if c = '\n' then [] :: splitNl rest
    else
      match splitNl rest with
      | [] => [[c]]
      | t :: ts => (c :: t) :: ts

/-- Worker for Python `str.split()` (no separator): `cur` is the word read so
far, reversed. -/
def splitWsAux : List Char → List Char → List (List Char)
  | cur, [] => if cur.isEmpty then [] else [cur.reverse]
  | cur, c :: rest =>
    if pySpace c then
      if cur.isEmpty then splitWsAux [] rest
      else cur.reverse :: splitWsAux [] rest
    else splitWsAux (c :: cur) rest

/-- Python `str.split()` with no argument: maximal runs of non-whitespace. -/
def splitWs (s : List Char) : List (List Char) :=
  splitWsAux [] s

/-- Python `' '.join(words)`. -/
def joinWords : List (List Char) → List Char
  | [] => []
  | [w] => w
  | w :: ws => w ++ ' ' :: joinWords ws

/-- Python `' '.join(s.split())`: collapse internal whitespace runs to single
spaces and trim the ends. -/
def normWs (s : List Char) : List Char :=
  joinWords (splitWs s)

/-- Python `str.lower()` (ASCII letters; other characters are unchanged,
which matches the program's data). -/
def pyLower (s : List Char) : List Char :=
  s.map Char.toLower

/-- Python `sub in s` (substring containment). -/
def pyContains (sub : List Char) : List Char → Bool
  | [] => sub.isEmpty
  | c :: rest => sub.isPrefixOf (c :: rest) || pyContains sub rest

/-- String-level `str.strip()`. -/
def pyStripS (s : String) : String := ⟨pyStrip s.data⟩

/-! ### Danger classifier (`_is_dangerous_command`, source lines 2211-2230)

The pattern list mixes plain substrings with regexes of the shape
`A.*B` (`re.search` semantics: an occurrence of `A`, then an occurrence of
`B` after it, with no newline in between, anywhere in the string). -/

/-- Does `b` occur in `s` after skipping zero or more non-newline characters?
(the `.*B` part of `re.search`, where `.` does not match a newline). -/
def matchesAfter (b : List Char) : List Char → Bool
  | [] => b.isEmpty
  | c :: rest => b.isPrefixOf (c :: rest) || (c ≠ '\n' && matchesAfter b rest)

/-- `re.search("A.*B", s)` for literal `A`, `B`: some occurrence of `A`
followed (same line) by an occurrence of `B`. -/
def searchTwo (a b : List Char) : List Char → Bool
  | [] => a.isEmpty && b.isEmpty
  | c :: rest =>
    (a.isPrefixOf (c :: rest) && matchesAfter b ((c :: rest).drop a.length))
      || searchTwo a b rest

/-- `_is_dangerous_command`: the fixed ordered pattern list of the source,
each regex translated to its matcher. -/
def is_dangerous_command (command : String) : Bool :=
  let s := command.data
  searchTwo "rm".data "-rf".data s            -- 'rm.*-rf'
  || pyContains "mkfs.".data s                -- 'mkfs\.'
  || searchTwo "dd".data "of=".data s         -- 'dd.*of='
  || searchTwo "chmod".data "777".data s      -- 'chmod.*777'
  || searchTwo ">".data "/etc/".data s        -- '>.*\/etc\/'
  || searchTwo "||".data "rm".data s          -- '\|\|.*rm'
  || pyContains "shutdown".data s
  || pyContains "reboot".data s
  || pyContains "poweroff".data s

/-! ### Rate limiter (`_check_rate_limit` / `_record_request`, lines 1421-1467)

`time.time()` instants are modelled as whole seconds in `ℤ`; the window logic
only compares differences against the constants 60, 3600 and 86400. -/

structure RateLimitState where
  rpm : ℕ
  rph : ℕ
  rpd : ℕ
  requests : List ℤ
deriving DecidableEq, Repr

/-- `_check_rate_limit`: if disabled, allow without touching state; otherwise
prune entries 24h or older, count the trailing minute / hour / day windows,
and refuse when any count is at or over its limit.  The pruned list is stored
back (the source mutates `self.rate_limit['requests']`) whatever the verdict. -/
def check_rate_limit (enabled : Bool) (rl : RateLimitState) (now : ℤ) :
    Bool × RateLimitState :=
  if !enabled then (true, rl)
  else
    let pruned := rl.requests.filter (fun t => now - t < 86400)
    let m := (pruned.filter (fun t => now - t < 60)).length
    let h := (pruned.filter (fun t => now - t < 3600)).length
    let d := pruned.length
    let rl' := { rl with requests := pruned }
    if rl.rpm ≤ m then (false, rl')
    else if rl.rph ≤ h then (false, rl')
    else if rl.rpd ≤ d then (false, rl')
    else (true, rl')

/-- `_record_request`: append the current instant. -/
def record_request (rl : RateLimitState) (now : ℤ) : RateLimitState :=
  { rl with requests := rl.requests ++ [now] }

/-! ### Command cleaning (`_clean_command`, lines 969-987) -/

/-- The code-fence removal branch: drop the first line of the reply, drop any
further line that itself starts with a fence marker, rejoin with newlines. -/
def stripFence (s : List Char) : List Char :=
  List.intercalate ['\n']
    (((splitNl s).drop 1).filter (fun l => !("```".data.isPrefixOf l)))

/-- The ordered label list `['命令: ', 'bash: ', 'shell: ', '$ ']`. -/
def labelList : List (List Char) :=
  ["命令: ".data, "bash: ".data, "shell: ".data, "$ ".data]

/-- Strip the first matching label from the front, if any (the source breaks
after the first hit). -/
def dropLabel : List (List Char) → List Char → List Char
  | [], s => s
  | p :: ps, s => if p.isPrefixOf s then s.drop p.length else dropLabel ps s

/-- `_clean_command`: strip, unfence, unlabel, collapse whitespace, strip. -/
def clean_command_chars (s : List Char) : List Char :=
  let s1 := pyStrip s
  let s2 := if "```".data.isPrefixOf s1 then stripFence s1 else s1
  let s3 := dropLabel labelList s2
  pyStrip (normWs s3)

/-- String-level `_clean_command`. -/
def clean_command (s : String) : String := ⟨clean_command_chars s.data⟩

/-! ### Fallback matcher (`_simple_command_fallback`, lines 914-967) -/

/-- The primary substring → command table, in source (insertion) order. -/
def commandMap : List (String × String) :=
  [("列出文件", "dir"), ("ls", "dir"), ("显示当前目录", "cd"), ("pwd", "cd"),
   ("切换目录", "cd"), ("创建目录", "mkdir"), ("删除目录", "rmdir"),
   ("创建文件", "echo >"), ("查看文件", "type"), ("删除文件", "del"),
   ("复制文件", "copy"), ("移动文件", "move"),
   ("系统信息", "systeminfo"), ("ip地址", "ipconfig"), ("进程列表", "tasklist"),
   ("清屏", "cls"), ("退出", "exit")]

/-- `_simple_command_fallback`: lower-case, first hit in the primary table,
then the secondary keyword chain, finally the default echo. -/
def simple_command_fallback (natural_language : String) : String :=
  let nl := pyLower natural_language.data
  match commandMap.find? (fun p => pyContains p.1.data nl) with
  | some p => p.2
  | none =>
    if pyContains "hello".data nl || pyContains "你好".data nl then
      "echo Hello, World!"
    else if pyContains "test".data nl then "echo 测试命令执行成功"
    else if pyContains "list".data nl || pyContains "ls".data nl
        || pyContains "dir".data nl then "dir"
    else if pyContains "cd".data nl || pyContains "切换目录".data nl
        || pyContains "目录".data nl then "cd"
    else if pyContains "file".data nl || pyContains "文件".data nl then "dir"
    else if pyContains "system".data nl || pyContains "系统".data nl then
      "systeminfo"
    else if pyContains "exit".data nl || pyContains "退出".data nl
        || pyContains "quit".data nl then "exit"
    else if pyContains "clear".data nl || pyContains "清屏".data nl then "cls"
    else "echo 无法识别的命令。试试输入\x27列出文件\x27、\x27系统信息\x27或\x27你好\x27等简单命令。"

/-! ### Conversation history and its two trimming sites -/

inductive Role
  | system
  | user
  | assistant
deriving DecidableEq, Repr

structure Message where
  role : Role
  content : String
deriving DecidableEq, Repr

/-- Python slice `l[i:]` for a possibly negative start index. -/
def pySliceFrom {α : Type} (i : ℤ) (l : List α) : List α :=
  if 0 ≤ i then l.drop i.toNat else l.drop (l.length - (-i).toNat)

/-- The trim inside `natural_language_to_shell` (lines 649-652):
`[history[0]] + history[-max_history_size+1:]` when over the cap — keeps the
presumed system entry at position zero. -/
def trim_history_translate (maxSize : ℕ) (h : List Message) : List Message :=
  if maxSize < h.length then
    match h with
    | [] => []
    | s0 :: _ => s0 :: pySliceFrom (1 - (maxSize : ℤ)) h
  else h

/-- The trim in the `main` loop after executing a command (lines 1922-1923):
`history[-max_history_size:]` when over the cap — a plain tail, with no
special treatment of the system entry. -/
def trim_history_main (maxSize : ℕ) (h : List Message) : List Message :=
  if maxSize < h.length then pySliceFrom (-(maxSize : ℤ)) h else h

/-! ### Command executor (`execute_shell_command`, lines 989-1182)

The Python function returns either a 3-tuple `(stdout, stderr, returncode)`
or the bare integer `-1`; `ExecRet` is that sum.  `ExecWorld` packages what
the environment does during one execution: whether a `KeyboardInterrupt` or
an unexpected exception reaches the function's own top-level handlers
(lines 1174-1182), what `os.system` returns on the sudo branch and whether
that branch raises (lines 1011-1040), and for the ordinary branch the child's
exit code, its output lines, and the wall-clock reading at the timeout check
(lines 1133, 1151). -/

inductive ExecRet
  | tup (out err : String) (code : ℤ)
  | intRet (code : ℤ)
deriving DecidableEq, Repr

/-- What the timeout path did to the child: nothing, a plain kill (Windows),
or SIGTERM-wait-then-kill (Unix, lines 1139-1147). -/
inductive KillAction
  | noKill
  | winKill
  | termThenKill
deriving DecidableEq, Repr

structure ExecWorld where
  raisesInterrupt : Bool
  outerError : Option String
  sudoError : Option String
  sudoRaw : ℤ
  elapsed : ℤ
  childCode : ℤ
  outLines : List String
  errLines : List String
deriving DecidableEq, Repr

structure ExecOutput where
  ret : ExecRet
  advisorCalled : Bool
  kill : KillAction
deriving DecidableEq, Repr

/-- Line 1002: `'sudo' in command and not command.startswith('#')`. -/
def is_sudo_command (command : String) : Bool :=
  pyContains "sudo".data command.data && !("#".data.isPrefixOf command.data)

/-- `execute_shell_command`, branch for branch.  The Error Advisor
(`_get_error_solution_from_llm`) is recorded as the flag `advisorCalled`:
invoked on a non-zero sudo exit (line 1035), on a non-zero ordinary exit
(line 1170), and from the top-level exception handler (line 1181) — but not
on the timeout return (line 1148) nor on `KeyboardInterrupt` (line 1176). -/
def execute_shell_command (isWindows : Bool) (timeout : ℤ) (command : String)
    (w : ExecWorld) : ExecOutput :=
  if w.raisesInterrupt then
    ⟨.intRet (-1), false, .noKill⟩
  else
    match w.outerError with
    | some _ => ⟨.intRet (-1), true, .noKill⟩
    | none =>
      if is_sudo_command command && !isWindows then
        match w.sudoError with
        | some m => ⟨.tup "" m (-1), false, .noKill⟩
        | none =>
          let rc := if isWindows then w.sudoRaw else Int.fdiv w.sudoRaw 256
          ⟨.tup "" "" rc, decide (rc ≠ 0), .noKill⟩
      else
        if timeout ≤ w.elapsed then
          ⟨.intRet (-1), false, if isWindows then .winKill else .termThenKill⟩
        else
          ⟨.tup (String.join w.outLines) (String.join w.errLines) w.childCode,
            decide (w.childCode ≠ 0), .noKill⟩

/-! ### Command translator (`natural_language_to_shell`, lines 485-706)

`ApiOutcome` says how the remote attempt went: a usable reply, an exception
raised inside the inner `try` of lines 541-670 (every network failure, HTTP
error or malformed reply lands here and is swallowed by the handler at
line 656), or one of the three outer handlers (lines 672, 677, 695) firing on
an exception raised outside that inner block.  Only the last, generic one
(line 695) runs the fallback matcher; the model places it after validation,
the latest point it can fire, which is immaterial to the properties proved. -/

inductive ApiOutcome
  | ok (content : String)
  | innerError
  | outerTimeout
  | outerConnError
  | outerError
deriving DecidableEq, Repr

structure TransState where
  history : List Message
  apiKey : String
  rateLimitEnabled : Bool
  rate : RateLimitState
  maxHistorySize : ℕ
deriving Repr

structure TransResult where
  state : TransState
  cmd : Option String
  netCalled : Bool
  fallbackUsed : Bool

/-- Line 510: `not self.api_key or len(self.api_key) < 10` (a missing key is
modelled as the empty string). -/
def api_key_invalid (k : String) : Bool :=
  k.isEmpty || k.length < 10

/-- Line 503: the enhanced user turn actually stored in the history. -/
def enhance_input (isWindows : Bool) (nl : String) : String :=
  "在" ++ (if isWindows then "Windows" else "Linux/Unix")
    ++ "系统上，将以下自然语言转换为Shell命令: " ++ nl
    ++ "\n请输出单个、完整、可执行的命令，不要其他内容。"

/-- `natural_language_to_shell`: import check, strip and reject empty input,
append the enhanced user turn, key check, rate check with one 2-second-later
retry, record, then the remote attempt with its handlers. -/
def natural_language_to_shell (hasAnthropic isWindows : Bool)
    (st : TransState) (input : String) (now : ℤ) (api : ApiOutcome) :
    TransResult :=
  if !hasAnthropic then ⟨st, none, false, false⟩
  else
    let nl := pyStripS input
    if nl.isEmpty then ⟨st, none, false, false⟩
    else
      let st1 := { st with
        history := st.history ++ [⟨.user, enhance_input isWindows nl⟩] }
      if api_key_invalid st1.apiKey then ⟨st1, none, false, false⟩
      else
        let c1 := check_rate_limit st1.rateLimitEnabled st1.rate now
        let afterRetry :=
          if c1.1 then ((true, c1.2), now)
          else (check_rate_limit st1.rateLimitEnabled c1.2 (now + 2), now + 2)
        if !afterRetry.1.1 then
          ⟨{ st1 with rate := afterRetry.1.2 }, none, false, false⟩
        else
          let st2 := { st1 with
            rate := record_request afterRetry.1.2 afterRetry.2 }
          match api with
          | .ok content =>
            let cmd := clean_command content
            let h2 := st2.history ++ [⟨.assistant, cmd⟩]
            ⟨{ st2 with
                history := trim_history_translate st2.maxHistorySize h2 },
              some cmd, true, false⟩
          | .innerError => ⟨st2, none, true, false⟩
          | .outerTimeout => ⟨st2, none, false, false⟩
          | .outerConnError => ⟨st2, none, false, false⟩
          | .outerError =>
            let fb := simple_command_fallback nl
            if fb.isEmpty then ⟨st2, none, false, true⟩
            else
              ⟨{ st2 with history := st2.history ++ [⟨.assistant, fb⟩] },
                some fb, false, true⟩

/-! ### Process lifecycle (`main`, lines 1684-1939, and `__main__`,
lines 2337-2360)

One interactive iteration either consumes a line, or an exception interrupts
it; `KeyboardInterrupt` and generic exceptions both `continue` the loop
(lines 1925-1935).  The loop ends on an `exit`/`quit`/`q` line (line 1696)
or on `EOFError` (line 1928); `main` then returns normally and the process
falls off the end of `__main__` with status 0.  An exception escaping
startup is caught at line 2358 and answered with `sys.exit(1)`. -/

inductive LoopEvent
  | line (s : String)
  | interrupt
  | error (msg : String)
deriving DecidableEq, Repr

inductive LoopEnd
  | quitCommand
  | endOfInput
deriving DecidableEq, Repr

/-- Line 1696: `user_input.lower() in ['exit', 'quit', 'q']` after `strip`. -/
def is_quit_command (s : String) : Bool :=
  let low : String := ⟨pyLower (pyStripS s).data⟩
  low = "exit" || low = "quit" || low = "q"

/-- The interactive loop: quit lines break, exhausted input is `EOFError`
(break), interrupts and in-loop exceptions continue. -/
def main_loop : List LoopEvent → LoopEnd
  | [] => .endOfInput
  | .line s :: rest => if is_quit_command s then .quitCommand else main_loop rest
  | .interrupt :: rest => main_loop rest
  | .error _ :: rest => main_loop rest

/-- The whole process: exit status 1 when startup raised, else run the loop
to its end and exit with status 0. -/
def run_program (startupError : Option String) (events : List LoopEvent) : ℕ :=
  match startupError with
  | some _ => 1
  | none =>
    let _ := main_loop events
    0

/-! ### Lemmas on the whitespace machinery (towards the cleaning claims) -/

/-- A word produced by `split()`: nonempty and whitespace-free. -/
def okWord (w : List Char) : Prop :=
  w ≠ [] ∧ ∀ c ∈ w, pySpace c = false

lemma head?_mem {α : Type} {l : List α} {c : α} (h : l.head? = some c) :
    c ∈ l := by
  cases l with
  | nil => simp at h
  | cons a t => simp at h; simp [h]

lemma head?_append_left {α : Type} (a b : List α) (h : a ≠ []) :
    (a ++ b).head? = a.head? := by
  cases a with
  | nil => exact absurd rfl h
  | cons x t => rfl

lemma dropWhile_eq_self_of_head (p : Char → Bool) (l : List Char)
    (h : ∀ c, l.head? = some c → p c = false) : l.dropWhile p = l := by
  cases l with
  | nil => rfl
  | cons a t => simp [List.dropWhile_cons, h a rfl]

/-- Every word `splitWsAux` emits is nonempty and whitespace-free, provided
the running word is whitespace-free. -/
lemma splitWsAux_okWords (s : List Char) :
    ∀ (cur : List Char), (∀ c ∈ cur, pySpace c = false) →
      ∀ w ∈ splitWsAux cur s, okWord w := by
  induction s with
  | nil =>
    intro cur hcur w hw
    by_cases he : cur.isEmpty
    · simp [splitWsAux, he] at hw
    · simp [splitWsAux, he] at hw
      subst hw
      refine ⟨by simpa using (List.isEmpty_eq_false.mp (by simpa using he)), ?_⟩
      intro c hc
      exact hcur c (List.mem_reverse.mp hc)
  | cons a rest ih =>
    intro cur hcur w hw
    by_cases ha : pySpace a = true
    · by_cases he : cur.isEmpty
      · simp [splitWsAux, ha, he] at hw
        exact ih [] (by simp) w hw
      · simp [splitWsAux, ha, he] at hw
        rcases hw with rfl | hw'
        · refine ⟨by simpa using (List.isEmpty_eq_false.mp (by simpa using he)), ?_⟩
          intro c hc
          exact hcur c (List.mem_reverse.mp hc)
        · exact ih [] (by simp) w hw'
    · simp [splitWsAux, ha] at hw
      refine ih (a :: cur) ?_ w hw
      intro c hc
      rcases List.mem_cons.mp hc with rfl | hc'
      · simpa using ha
      · exact hcur c hc'

/-- Feeding a whitespace-free word into the worker just accumulates it. -/
lemma splitWsAux_append (w : List Char) (hw : ∀ c ∈ w, pySpace c = false) :
    ∀ (cur rest : List Char),
      splitWsAux cur (w ++ rest) = splitWsAux (w.reverse ++ cur) rest := by
  induction w with
  | nil => intro cur rest; simp
  | cons c cs ih =>
    intro cur rest
    have hc : pySpace c = false := hw c (List.mem_cons_self c cs)
    have ihcs := ih (fun x hx => hw x (List.mem_cons_of_mem c hx))
    simp only [List.cons_append, splitWsAux, hc]
    rw [if_neg (by simp)]
    have h2 : (c :: cs).reverse ++ cur = cs.reverse ++ (c :: cur) := by simp
    rw [h2]
    exact ihcs (c :: cur) rest

/-- `split()` is a left inverse of `' '.join` on lists of genuine words. -/
lemma splitWs_joinWords :
    ∀ (ws : List (List Char)), (∀ w ∈ ws, okWord w) →
      splitWs (joinWords ws) = ws := by
  intro ws
  induction ws with
  | nil => intro _; rfl
  | cons w ws2 ih =>
    intro h
    have hw := h w (List.mem_cons_self w ws2)
    cases ws2 with
    | nil =>
      show splitWsAux [] (joinWords [w]) = [w]
      have : joinWords [w] = w ++ [] := by simp [joinWords]
      rw [this, splitWsAux_append w hw.2 [] []]
      have hrev : (w.reverse).isEmpty = false := by
        simp [List.isEmpty_eq_false, hw.1]
      simp [splitWsAux, hrev]
    | cons w2 ws3 =>
      show splitWsAux [] (joinWords (w :: w2 :: ws3)) = w :: w2 :: ws3
      have hj : joinWords (w :: w2 :: ws3) = w ++ ' ' :: joinWords (w2 :: ws3) := rfl
      rw [hj, splitWsAux_append w hw.2 [] (' ' :: joinWords (w2 :: ws3))]
      have hrev : (w.reverse ++ []).isEmpty = false := by
        simp [List.isEmpty_eq_false, hw.1]
      have hsp : pySpace ' ' = true := rfl
      simp only [splitWsAux, hsp, if_pos, hrev]
      rw [if_neg (by simp [hw.1])]
      have := ih (fun x hx => h x (List.mem_cons_of_mem w hx))
      simp only [splitWs] at this
      simp [this]

/-- The head of a joined word list is the head of its first word. -/
lemma joinWords_head (ws : List (List Char))
    (h : ∀ w ∈ ws, okWord w) :
    ∀ c, (joinWords ws).head? = some c → pySpace c = false := by
  cases ws with
  | nil => intro c hc; simp [joinWords] at hc
  | cons w ws2 =>
    have hw := h w (List.mem_cons_self w ws2)
    intro c hc
    have hhead : (joinWords (w :: ws2)).head? = w.head? := by
      cases ws2 with
      | nil => rfl
      | cons w2 ws3 =>
        have : joinWords (w :: w2 :: ws3) = w ++ ' ' :: joinWords (w2 :: ws3) := rfl
        rw [this, head?_append_left _ _ hw.1]
    rw [hhead] at hc
    exact hw.2 c (head?_mem hc)

/-- The last character of a joined word list lies in its last word. -/
lemma joinWords_rev_head (ws : List (List Char)) (h : ∀ w ∈ ws, okWord w) :
    ∀ c, (joinWords ws).reverse.head? = some c → pySpace c = false := by
  induction ws with
  | nil => intro c hc; simp [joinWords] at hc
  | cons w ws2 ih =>
    have hw := h w (List.mem_cons_self w ws2)
    intro c hc
    cases ws2 with
    | nil =>
      have : joinWords [w] = w := rfl
      rw [this] at hc
      exact hw.2 c (List.mem_reverse.mp (head?_mem hc))
    | cons w2 ws3 =>
      have h2 := ih (fun x hx => h x (List.mem_cons_of_mem w hx))
      have hw2 := h w2 (List.mem_cons_of_mem w (List.mem_cons_self w2 ws3))
      have hj : joinWords (w :: w2 :: ws3) = w ++ ' ' :: joinWords (w2 :: ws3) := rfl
      have hne : (joinWords (w2 :: ws3)) ≠ [] := by
        cases hh : joinWords (w2 :: ws3) with
        | nil =>
          exfalso
          have : (joinWords (w2 :: ws3)).head? = w2.head? := by
            cases ws3 with
            | nil => rfl
            | cons w3 ws4 =>
              have : joinWords (w2 :: w3 :: ws4)
                  = w2 ++ ' ' :: joinWords (w3 :: ws4) := rfl
              rw [this, head?_append_left _ _ hw2.1]
          rw [hh] at this
          cases hw2c : w2 with
          | nil => exact hw2.1 hw2c
          | cons a t => rw [hw2c] at this; simp at this
        | cons a t => simp
      rw [hj] at hc
      rw [List.reverse_append] at hc
      have hrevne : (' ' :: joinWords (w2 :: ws3)).reverse ≠ [] := by
        simp
      rw [head?_append_left _ _ hrevne] at hc
      have : (' ' :: joinWords (w2 :: ws3)).reverse
          = (joinWords (w2 :: ws3)).reverse ++ [' '] := by simp
      rw [this, head?_append_left _ _ (by simpa using hne)] at hc
      exact h2 c hc

/-- Words coming out of `split()` are genuine words. -/
lemma splitWs_okWords (s : List Char) : ∀ w ∈ splitWs s, okWord w :=
  splitWsAux_okWords s [] (by simp)

/-- `' '.join(s.split())` is a fixed point of itself. -/
lemma normWs_idem (s : List Char) : normWs (normWs s) = normWs s := by
  unfold normWs
  rw [splitWs_joinWords (splitWs s) (splitWs_okWords s)]

/-- `' '.join(s.split())` needs no further stripping. -/
lemma pyStrip_normWs (s : List Char) : pyStrip (normWs s) = normWs s := by
  have hok := splitWs_okWords s
  unfold pyStrip
  rw [dropWhile_eq_self_of_head pySpace (normWs s)
    (fun c hc => joinWords_head (splitWs s) hok c hc)]
  rw [dropWhile_eq_self_of_head pySpace (normWs s).reverse
    (fun c hc => joinWords_rev_head (splitWs s) hok c hc)]
  simp

/-- If no label matches the front of `s`, `dropLabel` leaves it alone. -/
lemma dropLabel_eq_self (ps : List (List Char)) (s : List Char)
    (h : ∀ p ∈ ps, p.isPrefixOf s = false) : dropLabel ps s = s := by
  induction ps with
  | nil => rfl
  | cons p ps2 ih =>
    simp only [dropLabel, h p (List.mem_cons_self p ps2)]
    rw [if_neg (by simp)]
    exact ih (fun q hq => h q (List.mem_cons_of_mem p hq))

/-- A clean output is normalised: it equals its own whitespace join. -/
lemma clean_command_chars_eq_norm (s : List Char) :
    ∃ t, clean_command_chars s = normWs t := by
  refine ⟨dropLabel labelList
    (if "```".data.isPrefixOf (pyStrip s) then stripFence (pyStrip s)
      else pyStrip s), ?_⟩
  unfold clean_command_chars
  rw [pyStrip_normWs]

/-! ### Claim theorems -/

lemma check_rate_limit_snd (rpm rph rpd : ℕ) (ts : List ℤ) (now : ℤ) :
    (check_rate_limit true ⟨rpm, rph, rpd, ts⟩ now).2 =
      ⟨rpm, rph, rpd, ts.filter (fun t => now - t < 86400)⟩ := by
  unfold check_rate_limit
  rw [if_neg (by simp)]
  dsimp only
  split_ifs <;> rfl

lemma check_rate_limit_fst (rpm rph rpd : ℕ) (ts : List ℤ) (now : ℤ) :
    (check_rate_limit true ⟨rpm, rph, rpd, ts⟩ now).1 = false ↔
      (rpm ≤ ((ts.filter (fun t => now - t < 86400)).filter
                (fun t => now - t < 60)).length
        ∨ rph ≤ ((ts.filter (fun t => now - t < 86400)).filter
                (fun t => now - t < 3600)).length
        ∨ rpd ≤ (ts.filter (fun t => now - t < 86400)).length) := by
  unfold check_rate_limit
  rw [if_neg (by simp)]
  dsimp only
  split_ifs with h1 h2 h3
  · exact ⟨fun _ => Or.inl h1, fun _ => rfl⟩
  · exact ⟨fun _ => Or.inr (Or.inl h2), fun _ => rfl⟩
  · exact ⟨fun _ => Or.inr (Or.inr h3), fun _ => rfl⟩
  · refine ⟨fun hcontra => ?_, fun hor => ?_⟩
    · simp at hcontra
    · rcases hor with h | h | h
      exacts [absurd h h1, absurd h h2, absurd h h3]

/-- C2: with the limiter enabled, `check` (i) first prunes timestamps 24h or
older and stores the pruned list back, (ii) refuses exactly when any of the
minute / hour / day window counts is at or over its configured limit, (iii) in
particular after N recorded calls all within a trailing window of `T ≤ 60`
seconds it refuses iff N is at or over any configured limit, (iv) once
simulated time moves past the minute boundary (no timestamp within 60s) a
request within the hour/day budgets is allowed again, and (v) once all
timestamps are at least 24h old everything is pruned and any positive limits
allow the request. -/
theorem rate_limiter_spec (rpm rph rpd : ℕ) (ts : List ℤ) (now : ℤ) :
    (check_rate_limit true ⟨rpm, rph, rpd, ts⟩ now).2.requests
        = ts.filter (fun t => now - t < 86400)
    ∧ ((check_rate_limit true ⟨rpm, rph, rpd, ts⟩ now).1 = false ↔
        (rpm ≤ ((ts.filter (fun t => now - t < 86400)).filter
                  (fun t => now - t < 60)).length
          ∨ rph ≤ ((ts.filter (fun t => now - t < 86400)).filter
                  (fun t => now - t < 3600)).length
          ∨ rpd ≤ (ts.filter (fun t => now - t < 86400)).length))
    ∧ (∀ T : ℤ, T ≤ 60 → (∀ t ∈ ts, 0 ≤ now - t ∧ now - t < T) →
        ((check_rate_limit true ⟨rpm, rph, rpd, ts⟩ now).1 = false ↔
          (rpm ≤ ts.length ∨ rph ≤ ts.length ∨ rpd ≤ ts.length)))
    ∧ ((∀ t ∈ ts, 60 ≤ now - t) → 0 < rpm → ts.length < rph →
        ts.length < rpd →
        (check_rate_limit true ⟨rpm, rph, rpd, ts⟩ now).1 = true)
    ∧ ((∀ t ∈ ts, 86400 ≤ now - t) → 0 < rpm → 0 < rph → 0 < rpd →
        (check_rate_limit true ⟨rpm, rph, rpd, ts⟩ now).1 = true) := by
  have hfst := check_rate_limit_fst rpm rph rpd ts now
  refine ⟨by rw [check_rate_limit_snd], hfst, ?_, ?_, ?_⟩
  · intro T hT hin
    have e1 : ts.filter (fun t => now - t < 86400) = ts :=
      List.filter_eq_self.mpr (by
        intro t ht
        have := hin t ht
        simp only [decide_eq_true_eq]
        omega)
    have e2 : ts.filter (fun t => now - t < 60) = ts :=
      List.filter_eq_self.mpr (by
        intro t ht
        have := hin t ht
        simp only [decide_eq_true_eq]
        omega)
    have e3 : ts.filter (fun t => now - t < 3600) = ts :=
      List.filter_eq_self.mpr (by
        intro t ht
        have := hin t ht
        simp only [decide_eq_true_eq]
        omega)
    rw [hfst, e1, e2, e3]
  · intro h60 hrpm hh hd
    have hnot : ¬(rpm ≤ ((ts.filter (fun t => now - t < 86400)).filter
                  (fun t => now - t < 60)).length
          ∨ rph ≤ ((ts.filter (fun t => now - t < 86400)).filter
                  (fun t => now - t < 3600)).length
          ∨ rpd ≤ (ts.filter (fun t => now - t < 86400)).length) := by
      have hm : ((ts.filter (fun t => now - t < 86400)).filter
          (fun t => now - t < 60)) = [] := by
        rw [List.filter_eq_nil_iff]
        intro t ht
        have ht' : t ∈ ts := (List.mem_filter.mp ht).1
        have := h60 t ht'
        simp only [decide_eq_true_eq]
        omega
      have hh' : ((ts.filter (fun t => now - t < 86400)).filter
            (fun t => now - t < 3600)).length ≤ ts.length :=
        le_trans (List.length_filter_le _ _) (List.length_filter_le _ _)
      have hd' : (ts.filter (fun t => now - t < 86400)).length ≤ ts.length :=
        List.length_filter_le _ _
      push_neg
      refine ⟨by rw [hm]; simpa using hrpm, by omega, by omega⟩
    cases hb : (check_rate_limit true ⟨rpm, rph, rpd, ts⟩ now).1 with
    | false => exact absurd (hfst.mp hb) hnot
    | true => rfl
  · intro hday hrpm hrph hrpd
    have hp : ts.filter (fun t => now - t < 86400) = [] := by
      rw [List.filter_eq_nil_iff]
      intro t ht
      have := hday t ht
      simp only [decide_eq_true_eq]
      omega
    have hnot : ¬(rpm ≤ ((ts.filter (fun t => now - t < 86400)).filter
                  (fun t => now - t < 60)).length
          ∨ rph ≤ ((ts.filter (fun t => now - t < 86400)).filter
                  (fun t => now - t < 3600)).length
          ∨ rpd ≤ (ts.filter (fun t => now - t < 86400)).length) := by
      rw [hp]
      push_neg
      exact ⟨by simpa using hrpm, by simpa using hrph, by simpa using hrpd⟩
    cases hb : (check_rate_limit true ⟨rpm, rph, rpd, ts⟩ now).1 with
    | false => exact absurd (hfst.mp hb) hnot
    | true => rfl

/-- C2 witness: with a per-minute limit of 1 and one call just recorded,
`check` refuses 30 seconds later and allows again 90 seconds later. -/
theorem rate_limiter_spec_witness :
    (check_rate_limit true ⟨1, 60, 100, [0]⟩ 30).1 = false
    ∧ (check_rate_limit true ⟨1, 60, 100, [0]⟩ 90).1 = true := by
  constructor
  · exact ((rate_limiter_spec 1 60 100 [0] 30).2.2.1 60 (by decide)
      (by decide)).mpr (Or.inl (by decide))
  · exact (rate_limiter_spec 1 60 100 [0] 90).2.2.2.1 (by decide) (by decide)
      (by decide) (by decide)

/-- C7: the danger classifier — a pure function of the command string — flags
`rm -rf /tmp/x` and `sudo shutdown now` and passes `ls -la`. -/
theorem danger_classifier_cases :
    is_dangerous_command "rm -rf /tmp/x" = true
    ∧ is_dangerous_command "ls -la" = false
    ∧ is_dangerous_command "sudo shutdown now" = true := by
  refine ⟨rfl, rfl, rfl⟩

/-- C4 (code bug): with `max_history_size = 2`, a conversation
`[system, user, user]` that exceeds the cap is trimmed by the `main` loop
(line 1922) to its plain 2-element tail, evicting the system entry from
position zero, whereas the trim inside `natural_language_to_shell`
(lines 649-652) keeps the system entry at position zero as the spec demands. -/
theorem history_trim_main_evicts_system :
    trim_history_main 2 [⟨Role.system, "prompt"⟩, ⟨Role.user, "a"⟩,
        ⟨Role.user, "b"⟩]
      = [⟨Role.user, "a"⟩, ⟨Role.user, "b"⟩]
    ∧ trim_history_translate 2 [⟨Role.system, "prompt"⟩, ⟨Role.user, "a"⟩,
        ⟨Role.user, "b"⟩]
      = [⟨Role.system, "prompt"⟩, ⟨Role.user, "b"⟩]
    ∧ (trim_history_main 2 [⟨Role.system, "prompt"⟩, ⟨Role.user, "a"⟩,
        ⟨Role.user, "b"⟩]).head? ≠ some ⟨Role.system, "prompt"⟩ := by
  refine ⟨rfl, rfl, by decide⟩

/-- C8: the process exits with status 0 whenever startup succeeded — the loop
always terminates normally, on a quit command or end of input, and interrupts
or in-loop errors merely continue it — and with status 1 exactly when an
exception escaped startup. -/
theorem exit_codes (events : List LoopEvent) (m : String) :
    run_program none events = 0
    ∧ run_program (some m) events = 1
    ∧ main_loop (LoopEvent.interrupt :: events) = main_loop events
    ∧ main_loop (LoopEvent.error m :: events) = main_loop events
    ∧ main_loop (LoopEvent.line "exit" :: events) = LoopEnd.quitCommand
    ∧ main_loop [] = LoopEnd.endOfInput := by
  refine ⟨rfl, rfl, rfl, rfl, ?_, rfl⟩
  show (if is_quit_command "exit" then LoopEnd.quitCommand
    else main_loop events) = LoopEnd.quitCommand
  rw [if_pos (by decide)]

lemma clean_chars_idem_aux (t : List Char)
    (hf : "```".data.isPrefixOf (normWs t) = false)
    (hl : ∀ p ∈ labelList, p.isPrefixOf (normWs t) = false) :
    clean_command_chars (normWs t) = normWs t := by
  unfold clean_command_chars
  dsimp only
  rw [pyStrip_normWs t]
  rw [if_neg (by rw [hf]; simp)]
  rw [dropLabel_eq_self labelList _ hl]
  rw [normWs_idem, pyStrip_normWs]

/-- C6 counterexample: cleaning is not idempotent — a first pass can expose a
fresh `$ ` label (or fence) that only a second pass strips:
`clean("$ $ ls") = "$ ls"` but `clean(clean("$ $ ls")) = "ls"`. -/
theorem clean_command_not_idempotent :
    clean_command "$ $ ls" = "$ ls"
    ∧ clean_command (clean_command "$ $ ls") = "ls"
    ∧ clean_command (clean_command "$ $ ls") ≠ clean_command "$ $ ls" := by
  refine ⟨rfl, rfl, by decide⟩

/-- C6 (amended): cleaning is idempotent on every input whose cleaned form
does not itself begin with a code fence or one of the recognised labels
(`命令: `, `bash: `, `shell: `, `$ `); in that case
`clean(clean(x)) = clean(x)`. -/
theorem clean_command_conditionally_idempotent (s : String)
    (hfence : "```".data.isPrefixOf (clean_command s).data = false)
    (hlabel : ∀ p ∈ labelList, p.isPrefixOf (clean_command s).data = false) :
    clean_command (clean_command s) = clean_command s := by
  obtain ⟨t, ht⟩ := clean_command_chars_eq_norm s.data
  have hdata : (clean_command s).data = clean_command_chars s.data := rfl
  have key : clean_command_chars (clean_command_chars s.data)
      = clean_command_chars s.data := by
    rw [ht]
    exact clean_chars_idem_aux t (by rw [hdata, ht] at hfence; exact hfence)
      (by rw [hdata, ht] at hlabel; exact hlabel)
  exact congrArg String.mk key

/-- C6 witness: a whitespace-irregular input on which the amended idempotence
theorem applies. -/
theorem clean_command_idempotent_witness :
    clean_command (clean_command "  ls   -la  ") = clean_command "  ls   -la  " :=
  clean_command_conditionally_idempotent "  ls   -la  " (by decide) (by decide)

/-- Every value in the primary fallback table is a nonempty command. -/
lemma commandMap_values_nonempty :
    ∀ q ∈ commandMap, (q.2).isEmpty = false := by decide

/-- The fallback matcher is total: it always returns a nonempty command. -/
lemma simple_command_fallback_nonempty (s : String) :
    (simple_command_fallback s).isEmpty = false := by
  unfold simple_command_fallback
  dsimp only
  cases hf : commandMap.find? (fun p => pyContains p.1.data (pyLower s.data)) with
  | some p =>
    exact commandMap_values_nonempty p (List.mem_of_find?_eq_some hf)
  | none =>
    dsimp only
    split_ifs <;> rfl

/-- C9: `execute_shell_command` returns the bare integer `-1` (never a tuple)
exactly when a `KeyboardInterrupt` or an unexpected exception reaches its
top-level handlers or when the wall-clock check fires on the ordinary
(non-sudo) path; in every other case — ordinary completion, a sudo run, or
an exception inside the sudo block — it returns a `(stdout, stderr, code)`
tuple. -/
theorem executor_return_shape (isWindows : Bool) (timeout : ℤ)
    (command : String) (w : ExecWorld) :
    ((execute_shell_command isWindows timeout command w).ret
        = ExecRet.intRet (-1) ↔
      (w.raisesInterrupt = true ∨ w.outerError ≠ none ∨
        ((is_sudo_command command && !isWindows) = false ∧
          timeout ≤ w.elapsed)))
    ∧ ((w.raisesInterrupt = false ∧ w.outerError = none ∧
        ((is_sudo_command command && !isWindows) = true ∨
          w.elapsed < timeout)) →
      ∃ o e c, (execute_shell_command isWindows timeout command w).ret
        = ExecRet.tup o e c) := by
  unfold execute_shell_command
  cases hi : w.raisesInterrupt with
  | true => simp [hi]
  | false =>
    cases ho : w.outerError with
    | some msg => simp [hi, ho]
    | none =>
      by_cases hs : (is_sudo_command command && !isWindows) = true
      · cases hse : w.sudoError with
        | some m => simp [hi, ho, hs, hse]
        | none => simp [hi, ho, hs, hse]
      · have hs' : (is_sudo_command command && !isWindows) = false := by
          cases hb : (is_sudo_command command && !isWindows)
          · rfl
          · exact absurd hb hs
        by_cases ht : timeout ≤ w.elapsed
        · simp [hi, ho, hs', ht]
        · simp [hi, ho, hs', ht]

/-- C9 witness: an ordinary successful run yields a tuple. -/
theorem executor_return_shape_witness :
    ∃ o e c, (execute_shell_command false 60 "ls -la"
      ⟨false, none, none, 0, 1, 0, ["x"], []⟩).ret = ExecRet.tup o e c :=
  (executor_return_shape false 60 "ls -la"
    ⟨false, none, none, 0, 1, 0, ["x"], []⟩).2 ⟨rfl, rfl, Or.inr (by decide)⟩

/-- C1 counterexample: when the timeout fires (elapsed 61s against a 60s
bound) the executor returns the bare integer `-1` — there is no result record
and no timed-out flag — and the Error Advisor is *not* invoked, contrary to
the claim. -/
theorem executor_timeout_no_advisor :
    (execute_shell_command false 60 "sleep 120"
        ⟨false, none, none, 0, 61, 0, [], []⟩).advisorCalled = false
    ∧ (execute_shell_command false 60 "sleep 120"
        ⟨false, none, none, 0, 61, 0, [], []⟩).ret = ExecRet.intRet (-1) :=
  ⟨rfl, rfl⟩

/-- C1 (amended): on the ordinary path, whenever the elapsed wall-clock at
the post-read check reaches the timeout, `execute_shell_command` terminates
the child (plain kill on Windows; SIGTERM, a brief wait, then kill on Unix)
and returns the bare integer `-1` — a non-zero value but not a result
record — and the Error Advisor is not invoked on this path. -/
theorem executor_timeout_behaviour (isWindows : Bool) (timeout : ℤ)
    (command : String) (w : ExecWorld)
    (hi : w.raisesInterrupt = false) (ho : w.outerError = none)
    (hs : (is_sudo_command command && !isWindows) = false)
    (ht : timeout ≤ w.elapsed) :
    execute_shell_command isWindows timeout command w =
      ⟨ExecRet.intRet (-1), false,
        if isWindows then KillAction.winKill else KillAction.termThenKill⟩ := by
  unfold execute_shell_command
  simp [hi, ho, hs, ht]

/-- C1 witness: a concrete timed-out execution, SIGTERM-then-kill on Unix. -/
theorem executor_timeout_behaviour_witness :
    execute_shell_command false 60 "sleep 120"
        ⟨false, none, none, 0, 75, 0, [], []⟩
      = ⟨ExecRet.intRet (-1), false, KillAction.termThenKill⟩ :=
  executor_timeout_behaviour false 60 "sleep 120"
    ⟨false, none, none, 0, 75, 0, [], []⟩ rfl rfl (by decide) (by decide)

/-- C5 counterexample: with no credential configured (empty key), `translate`
returns `None` — not a fallback command — although it indeed makes no network
call. -/
theorem translate_no_credential_returns_none :
    (natural_language_to_shell true false
        ⟨[], "", true, ⟨10, 60, 100, []⟩, 100⟩ "hello" 0
        ApiOutcome.innerError).cmd = none
    ∧ (natural_language_to_shell true false
        ⟨[], "", true, ⟨10, 60, 100, []⟩, 100⟩ "hello" 0
        ApiOutcome.innerError).cmd ≠ some (simple_command_fallback "hello")
    ∧ (natural_language_to_shell true false
        ⟨[], "", true, ⟨10, 60, 100, []⟩, 100⟩ "hello" 0
        ApiOutcome.innerError).netCalled = false := by
  refine ⟨rfl, by decide, rfl⟩

/-- C5 (amended): for every non-empty input, when the API key is absent or
fails the minimum-length check, `translate` returns `None` — the fallback is
not consulted — and makes no network call. -/
theorem translate_no_credential (isWindows : Bool) (st : TransState)
    (input : String) (now : ℤ) (api : ApiOutcome)
    (hne : (pyStripS input).isEmpty = false)
    (hkey : api_key_invalid st.apiKey = true) :
    (natural_language_to_shell true isWindows st input now api).cmd = none
    ∧ (natural_language_to_shell true isWindows st input now api).netCalled
        = false
    ∧ (natural_language_to_shell true isWindows st input now api).fallbackUsed
        = false := by
  unfold natural_language_to_shell
  simp [hne, hkey]

/-- C5 witness: a concrete keyless translation attempt. -/
theorem translate_no_credential_witness :
    (natural_language_to_shell true false
        ⟨[], "", true, ⟨10, 60, 100, []⟩, 100⟩ "list files" 0
        ApiOutcome.innerError).netCalled = false :=
  (translate_no_credential false ⟨[], "", true, ⟨10, 60, 100, []⟩, 100⟩
    "list files" 0 ApiOutcome.innerError (by decide) (by decide)).2.1

/-- C10: the enhanced user turn is appended *before* the credential and
rate-limit checks, so when either check fails and `translate` returns `None`,
the conversation has still grown by exactly that user entry. -/
theorem translate_validation_failure_keeps_user_turn (isWindows : Bool)
    (st : TransState) (input : String) (now : ℤ) (api : ApiOutcome)
    (hne : (pyStripS input).isEmpty = false)
    (hfail : api_key_invalid st.apiKey = true ∨
      ((check_rate_limit st.rateLimitEnabled st.rate now).1 = false ∧
        (check_rate_limit st.rateLimitEnabled
          (check_rate_limit st.rateLimitEnabled st.rate now).2
          (now + 2)).1 = false)) :
    (natural_language_to_shell true isWindows st input now api).cmd = none
    ∧ (natural_language_to_shell true isWindows st input now api).state.history
      = st.history
          ++ [⟨Role.user, enhance_input isWindows (pyStripS input)⟩] := by
  unfold natural_language_to_shell
  rcases hfail with hkey | ⟨h1, h2⟩
  · simp [hne, hkey]
  · by_cases hkey : api_key_invalid st.apiKey = true
    · simp [hne, hkey]
    · have hkey' : api_key_invalid st.apiKey = false := by
        cases hb : api_key_invalid st.apiKey
        · rfl
        · exact absurd hb hkey
      simp [hne, hkey', h1, h2]

/-- C10 witness: with no key, the failed translation still appends the
enhanced user turn after the system entry. -/
theorem translate_validation_failure_witness :
    (natural_language_to_shell true false
        ⟨[⟨Role.system, "p"⟩], "", true, ⟨10, 60, 100, []⟩, 100⟩ "hello" 5
        ApiOutcome.innerError).state.history
      = [⟨Role.system, "p"⟩]
          ++ [⟨Role.user, enhance_input false (pyStripS "hello")⟩] :=
  (translate_validation_failure_keeps_user_turn false
    ⟨[⟨Role.system, "p"⟩], "", true, ⟨10, 60, 100, []⟩, 100⟩ "hello" 5
    ApiOutcome.innerError (by decide) (Or.inl (by decide))).2

/-- C3 counterexample: with a valid key and free rate budget, a failure of
the remote call itself (an exception inside the inner `try`, which is where
every network timeout, connection failure or HTTP error lands) makes
`translate` return `None` without invoking the Fallback Matcher, contrary to
the claim. -/
theorem translate_inner_error_no_fallback :
    (natural_language_to_shell true false
        ⟨[], "abcdefghij", true, ⟨10, 60, 100, []⟩, 100⟩ "list files" 0
        ApiOutcome.innerError).cmd = none
    ∧ (natural_language_to_shell true false
        ⟨[], "abcdefghij", true, ⟨10, 60, 100, []⟩, 100⟩ "list files" 0
        ApiOutcome.innerError).fallbackUsed = false :=
  ⟨rfl, rfl⟩

/-- C3 (amended): exceptions raised during the remote attempt are swallowed
by the inner handler and `translate` returns `None` with no fallback; only a
generic exception raised outside the inner network block reaches the outer
handler that runs the Fallback Matcher, in which case `translate` returns the
(always nonempty) fallback command. -/
theorem translate_failure_handler_paths (isWindows : Bool) (st : TransState)
    (input : String) (now : ℤ)
    (hne : (pyStripS input).isEmpty = false)
    (hkey : api_key_invalid st.apiKey = false)
    (hrate : (check_rate_limit st.rateLimitEnabled st.rate now).1 = true) :
    (natural_language_to_shell true isWindows st input now
        ApiOutcome.innerError).cmd = none
    ∧ (natural_language_to_shell true isWindows st input now
        ApiOutcome.innerError).fallbackUsed = false
    ∧ (natural_language_to_shell true isWindows st input now
        ApiOutcome.outerError).cmd
      = some (simple_command_fallback (pyStripS input))
    ∧ (natural_language_to_shell true isWindows st input now
        ApiOutcome.outerError).fallbackUsed = true := by
  unfold natural_language_to_shell
  have hfb := simple_command_fallback_nonempty (pyStripS input)
  simp [hne, hkey, hrate, hfb]

/-- C3 witness: on an unmatched input the outer-handler path really returns
the fallback command. -/
theorem translate_failure_handler_witness :
    (natural_language_to_shell true false
        ⟨[], "abcdefghij", true, ⟨10, 60, 100, []⟩, 100⟩ "zzzz" 0
        ApiOutcome.outerError).cmd
      = some (simple_command_fallback (pyStripS "zzzz")) :=
  (translate_failure_handler_paths false
    ⟨[], "abcdefghij", true, ⟨10, 60, 100, []⟩, 100⟩ "zzzz" 0 (by decide)
    (by decide) (by decide)).2.2.1

end ECNUShell
